import Mathlib

/-!
Verification of the loggregator-agent core pipeline against its
natural-language specification.  The repository ships the tests of the
components (message aggregator, tagger, transponder, diode, binding
fetcher, event marshaller/unmarshaller) but, except for the v2
`EnvelopeWriter`, not their implementations; those components are
modelled from the specification (each such definition is marked
`Modelled from the spec:`) and checked for consistency with the
behaviour the in-repo tests pin down.
-/

/-! ## Data model: v1 (dropsonde) envelopes -/

/-- 64-bit modulus: counter deltas and totals are unsigned 64-bit values. -/
def U64 : Nat := 2 ^ 64

/-- A v1 `CounterEvent` payload: name, delta, and an optional
producer-set total (`GetDelta` yields 0 when the field is unset, so the
delta is a plain `Nat`; the total's presence matters, so it is an
`Option`). -/
structure CounterEvent where
  name : String
  delta : Nat
  total : Option Nat
deriving DecidableEq, Repr

/-- A v1 `ValueMetric` payload.  The numeric value is opaque to every
component modelled here (nothing reads or writes it), so it is carried
as an `Int` stand-in for the wire double. -/
structure ValueMetric where
  name : String
  value : Int
  unit : String
deriving DecidableEq, Repr

/-- The v1 envelope event-type discriminator. -/
inductive V1EventType
  | logMessage
  | valueMetric
  | counterEvent
  | containerMetric
  | httpStartStop
  | errorEvent
deriving DecidableEq, Repr

/-- A v1 (dropsonde) envelope, mirroring the proto fields the modelled
components touch: origin, event type, the counter and value payloads,
the four identity tags set by the Tagger, and the free-form tag map
(represented as a list of key/value pairs). -/
structure V1Envelope where
  origin : Option String
  eventType : V1EventType
  counterEvent : Option CounterEvent
  valueMetric : Option ValueMetric
  deployment : Option String
  job : Option String
  idx : Option String
  ip : Option String
  tags : List (String × String)
deriving DecidableEq, Repr

/-! ## Counter aggregator (claims C1, C2, C3)

Modelled from the spec: the repository carries only the tests of
`MessageAggregator` (egress/v1), not its implementation.  Per the spec,
the aggregator keeps a map from counter key — the tuple
(origin, name, sorted(tag-list)) — to a running total; a delta update
adds onto the running total and writes the new total back onto the
envelope, while an explicit producer-set total replaces the running
value. -/

/-- Ordering used to sort a tag list by key (then value) when forming a
counter key. -/
def tagLe (a b : String × String) : Bool :=
  if a.1 = b.1 then a.2 ≤ b.2 else a.1 < b.1

/-- Insertion step of the tag sort. -/
def insertTag (a : String × String) : List (String × String) → List (String × String)
  | [] => [a]
  | b :: rest => if tagLe a b then a :: b :: rest else b :: insertTag a rest

/-- Sorted view of a tag list, used to build the counter key
(`sorted(tag-list)` in the spec). -/
def sortTags (ts : List (String × String)) : List (String × String) :=
  ts.foldr insertTag []

/-- Counter key: (origin, name, sorted tag list); case-sensitive. -/
abbrev CounterKey := String × String × List (String × String)

/-- The aggregator's running-total map, modelled as an association
list (a Go map from counter key to uint64). -/
abbrev AggState := List (CounterKey × Nat)

/-- Map lookup; an absent key reads as 0 (Go zero value). -/
def lookupTotal : AggState → CounterKey → Nat
  | [], _ => 0
  | (k', v) :: rest, k => if k' = k then v else lookupTotal rest k

/-- Map update (insert or overwrite). -/
def setTotal : AggState → CounterKey → Nat → AggState
  | [], k, v => [(k, v)]
  | (k', v') :: rest, k, v =>
      if k' = k then (k, v) :: rest else (k', v') :: setTotal rest k v

/-- The counter key of an envelope carrying counter payload `ce`
(`GetOrigin` yields "" when unset). -/
def counterKey (e : V1Envelope) (ce : CounterEvent) : CounterKey :=
  (e.origin.getD "", ce.name, sortTags e.tags)

/-- Modelled from the spec: `MessageAggregator.Write` for one envelope.
For a counter envelope: if the incoming counter explicitly carries a
total, that total replaces the running value; otherwise the running
total is advanced by the delta (64-bit arithmetic) and the new total is
written back onto the envelope before it proceeds downstream.  Every
other envelope passes through untouched. -/
def aggregatorWrite (st : AggState) (e : V1Envelope) : AggState × V1Envelope :=
  if e.eventType = V1EventType.counterEvent then
    match e.counterEvent with
    | some ce =>
        let k := counterKey e ce
        let newTotal :=
          match ce.total with
          | some t => t % U64
          | none => (lookupTotal st k + ce.delta) % U64
        (setTotal st k newTotal,
         { e with counterEvent := some { ce with total := some newTotal } })
    | none => (st, e)
  else (st, e)

/-- Run the aggregator over a sequence of envelopes, collecting the
emitted envelopes in order. -/
def aggregatorRun (st : AggState) : List V1Envelope → AggState × List V1Envelope
  | [] => (st, [])
  | e :: rest =>
      let p := aggregatorWrite st e
      let q := aggregatorRun p.1 rest
      (q.1, p.2 :: q.2)

/-- The total carried by an emitted envelope's counter payload. -/
def emittedTotal (e : V1Envelope) : Option Nat :=
  e.counterEvent.bind (fun ce => ce.total)

/-- The delta carried by an envelope's counter payload (0 when absent). -/
def envDelta (e : V1Envelope) : Nat :=
  match e.counterEvent with
  | some ce => ce.delta
  | none => 0

/-- Erase the counter total of an envelope (used to state that the
aggregator changes nothing but the total). -/
def clearTotal (e : V1Envelope) : V1Envelope :=
  { e with counterEvent := e.counterEvent.map (fun ce => { ce with total := none }) }

/-- An envelope is a delta-only counter update for key `K`. -/
def counterShape (e : V1Envelope) (K : CounterKey) : Prop :=
  e.eventType = V1EventType.counterEvent ∧
    ∃ ce : CounterEvent, e.counterEvent = some ce ∧ ce.total = none ∧ counterKey e ce = K

/-- Running totals with 64-bit wraparound, seeded at `v`. -/
def runningTotals (v : Nat) : List Nat → List Nat
  | [] => []
  | d :: ds => ((v + d) % U64) :: runningTotals ((v + d) % U64) ds

/-- Exact running prefix sums seeded at `v`. -/
def prefixSumsFrom (v : Nat) : List Nat → List Nat
  | [] => []
  | d :: ds => (v + d) :: prefixSumsFrom (v + d) ds

theorem lookupTotal_setTotal (st : AggState) (k k' : CounterKey) (v : Nat) :
    lookupTotal (setTotal st k v) k' = if k = k' then v else lookupTotal st k' := by
  induction st with
  | nil => simp [setTotal, lookupTotal]
  | cons p rest ih =>
      obtain ⟨pk, pv⟩ := p
      by_cases h : pk = k
      · subst h
        simp only [setTotal, if_pos rfl, lookupTotal]
        by_cases h' : pk = k'
        · simp [h']
        · simp [h']
      · have hset : setTotal ((pk, pv) :: rest) k v = (pk, pv) :: setTotal rest k v := by
          simp [setTotal, h]
        rw [hset]
        simp only [lookupTotal]
        by_cases h' : pk = k'
        · have hk : ¬ k = k' := fun hkk => h (h'.trans hkk.symm)
          simp [h', hk]
        · simp [h', ih]

theorem aggregatorWrite_deltaCase (st : AggState) (e : V1Envelope) (ce : CounterEvent)
    (ht : e.eventType = V1EventType.counterEvent) (hc : e.counterEvent = some ce)
    (hT : ce.total = none) :
    aggregatorWrite st e =
      (setTotal st (counterKey e ce) ((lookupTotal st (counterKey e ce) + ce.delta) % U64),
       { e with counterEvent := some { ce with total := some ((lookupTotal st (counterKey e ce) + ce.delta) % U64) } }) := by
  simp [aggregatorWrite, ht, hc, hT]

theorem aggregatorWrite_totalCase (st : AggState) (e : V1Envelope) (ce : CounterEvent) (T : Nat)
    (ht : e.eventType = V1EventType.counterEvent) (hc : e.counterEvent = some ce)
    (hT : ce.total = some T) :
    aggregatorWrite st e =
      (setTotal st (counterKey e ce) (T % U64),
       { e with counterEvent := some { ce with total := some (T % U64) } }) := by
  simp [aggregatorWrite, ht, hc, hT]

/-- C1: when the aggregator processes a counter envelope that explicitly
carries a producer-set total T, the envelope it emits carries total
exactly T (the running value is replaced, not added to), and a
subsequent counter envelope for the same key with delta d is emitted
with total T + d (deltas resume from T). -/
theorem aggregator_total_replaces (st : AggState) (e1 e2 : V1Envelope)
    (ce1 ce2 : CounterEvent) (T : Nat)
    (h1t : e1.eventType = V1EventType.counterEvent) (h1c : e1.counterEvent = some ce1)
    (h1T : ce1.total = some T) (hT : T < U64)
    (h2t : e2.eventType = V1EventType.counterEvent) (h2c : e2.counterEvent = some ce2)
    (h2T : ce2.total = none)
    (hkey : counterKey e2 ce2 = counterKey e1 ce1)
    (hTd : T + ce2.delta < U64) :
    emittedTotal (aggregatorWrite st e1).2 = some T ∧
    emittedTotal (aggregatorWrite (aggregatorWrite st e1).1 e2).2 = some (T + ce2.delta) := by
  have h1 := aggregatorWrite_totalCase st e1 ce1 T h1t h1c h1T
  have hTmod : T % U64 = T := Nat.mod_eq_of_lt hT
  refine ⟨?_, ?_⟩
  · rw [h1]
    simp [emittedTotal, hTmod]
  · rw [h1]
    have h2 := aggregatorWrite_deltaCase
      (setTotal st (counterKey e1 ce1) (T % U64)) e2 ce2 h2t h2c h2T
    rw [h2]
    simp [emittedTotal, hkey, lookupTotal_setTotal, hTmod, Nat.mod_eq_of_lt hTd]

/-- A counter envelope with the shape used by the aggregator tests:
origin, name, delta, optional explicit total, and tags. -/
def mkCounterEnv (origin name : String) (d : Nat) (t : Option Nat)
    (tags : List (String × String)) : V1Envelope :=
  { origin := some origin, eventType := V1EventType.counterEvent,
    counterEvent := some { name := name, delta := d, total := t },
    valueMetric := none, deployment := none, job := none, idx := none, ip := none,
    tags := tags }

theorem aggregator_total_replaces_witness :
    emittedTotal (aggregatorWrite []
        (mkCounterEnv "fake-origin-4" "total" 0 (some 101) [("protocol", "tcp")])).2
      = some 101 ∧
    emittedTotal (aggregatorWrite
        (aggregatorWrite []
          (mkCounterEnv "fake-origin-4" "total" 0 (some 101) [("protocol", "tcp")])).1
        (mkCounterEnv "fake-origin-4" "total" 4 none [("protocol", "tcp")])).2
      = some 105 :=
  aggregator_total_replaces []
    (mkCounterEnv "fake-origin-4" "total" 0 (some 101) [("protocol", "tcp")])
    (mkCounterEnv "fake-origin-4" "total" 4 none [("protocol", "tcp")])
    { name := "total", delta := 0, total := some 101 }
    { name := "total", delta := 4, total := none }
    101 rfl rfl rfl (by decide) rfl rfl rfl rfl (by decide)

theorem aggregatorRun_sameKey (K : CounterKey) :
    ∀ (es : List V1Envelope) (st : AggState),
      (∀ e ∈ es, counterShape e K) →
      ((aggregatorRun st es).2.map emittedTotal
          = (runningTotals (lookupTotal st K) (es.map envDelta)).map some)
      ∧ (aggregatorRun st es).2.map clearTotal = es := by
  intro es
  induction es with
  | nil =>
      intro st _
      simp [aggregatorRun, runningTotals]
  | cons e rest ih =>
      intro st h
      obtain ⟨ht, ce, hc, hT, hk⟩ := h e (List.mem_cons_self _ _)
      have hrest : ∀ e' ∈ rest, counterShape e' K :=
        fun e' he' => h e' (List.mem_cons_of_mem _ he')
      have hw := aggregatorWrite_deltaCase st e ce ht hc hT
      rw [hk] at hw
      have hrun : aggregatorRun st (e :: rest)
          = ((aggregatorRun (aggregatorWrite st e).1 rest).1,
             (aggregatorWrite st e).2 :: (aggregatorRun (aggregatorWrite st e).1 rest).2) := rfl
      rw [hrun, hw]
      have hlook : lookupTotal (setTotal st K ((lookupTotal st K + ce.delta) % U64)) K
          = (lookupTotal st K + ce.delta) % U64 := by
        rw [lookupTotal_setTotal]
        simp
      obtain ⟨ih1, ih2⟩ := ih (setTotal st K ((lookupTotal st K + ce.delta) % U64)) hrest
      rw [hlook] at ih1
      have hdelta : envDelta e = ce.delta := by simp [envDelta, hc]
      refine ⟨?_, ?_⟩
      · have hhead : emittedTotal { e with counterEvent := some { ce with total := some ((lookupTotal st K + ce.delta) % U64) } } = some ((lookupTotal st K + ce.delta) % U64) := rfl
        simp only [List.map_cons, hdelta, runningTotals, ih1, hhead]
      · simp only [List.map_cons, ih2, List.cons.injEq, and_true]
        have hce : { ce with total := none } = ce := by
          cases ce
          simp_all
        have hmap : Option.map (fun c => ({ c with total := none } : CounterEvent))
            (some { ce with total := some ((lookupTotal st K + ce.delta) % U64) })
            = some ce := congrArg some hce
        simp only [clearTotal]
        rw [hmap, ← hc]

theorem runningTotals_eq_prefixSumsFrom (ds : List Nat) :
    ∀ v, v + ds.sum < U64 → runningTotals v ds = prefixSumsFrom v ds := by
  induction ds with
  | nil =>
      intro v _
      rfl
  | cons d ds ih =>
      intro v h
      rw [List.sum_cons] at h
      have hvd : v + d < U64 := by omega
      have hmod : (v + d) % U64 = v + d := Nat.mod_eq_of_lt hvd
      simp only [runningTotals, prefixSumsFrom, hmod]
      exact congrArg (fun l => (v + d) :: l) (ih (v + d) (by omega))

/-- C2: for every counter key K and every sequence of counter envelopes
for K carrying deltas d1..dn with no interleaved explicit-total
envelope, the aggregator emits those envelopes with totals equal to the
running prefix sums d1, d1+d2, ..., each total written back onto the
envelope (nothing else about the envelope is changed). -/
theorem aggregator_prefix_sums (K : CounterKey) (es : List V1Envelope)
    (h : ∀ e ∈ es, counterShape e K)
    (hsum : (es.map envDelta).sum < U64) :
    ((aggregatorRun [] es).2.map emittedTotal
        = (prefixSumsFrom 0 (es.map envDelta)).map some)
    ∧ (aggregatorRun [] es).2.map clearTotal = es := by
  obtain ⟨h1, h2⟩ := aggregatorRun_sameKey K es [] h
  refine ⟨?_, h2⟩
  rw [h1]
  have h0 : lookupTotal [] K = 0 := rfl
  rw [h0]
  rw [runningTotals_eq_prefixSumsFrom (es.map envDelta) 0 (by omega)]

theorem aggregator_prefix_sums_witness :
    (aggregatorRun []
        [mkCounterEnv "fake-origin-4" "total" 4 none [("protocol", "tcp")],
         mkCounterEnv "fake-origin-4" "total" 4 none [("protocol", "tcp")],
         mkCounterEnv "fake-origin-4" "total" 4 none [("protocol", "tcp")]]).2.map emittedTotal
      = [some 4, some 8, some 12] := by
  have h := aggregator_prefix_sums ("fake-origin-4", "total", [("protocol", "tcp")])
    [mkCounterEnv "fake-origin-4" "total" 4 none [("protocol", "tcp")],
     mkCounterEnv "fake-origin-4" "total" 4 none [("protocol", "tcp")],
     mkCounterEnv "fake-origin-4" "total" 4 none [("protocol", "tcp")]]
    (by
      intro e he
      simp only [List.mem_cons, List.not_mem_nil, or_false] at he
      rcases he with h | h | h <;> subst h <;> exact ⟨rfl, _, rfl, rfl, rfl⟩)
    (by decide)
  exact h.1.trans (by rfl)

/-- C3: counter running totals are keyed by (origin, name, tag set):
two delta-only counters accumulate into the same running total exactly
when origin, name and (sorted) tags all agree, and otherwise they are
accumulated independently. -/
theorem aggregator_key_separation (e1 e2 : V1Envelope) (ce1 ce2 : CounterEvent)
    (h1t : e1.eventType = V1EventType.counterEvent) (h1c : e1.counterEvent = some ce1)
    (h1T : ce1.total = none)
    (h2t : e2.eventType = V1EventType.counterEvent) (h2c : e2.counterEvent = some ce2)
    (h2T : ce2.total = none)
    (hd : ce1.delta + ce2.delta < U64) :
    (counterKey e2 ce2 = counterKey e1 ce1 →
      emittedTotal (aggregatorWrite (aggregatorWrite [] e1).1 e2).2
        = some (ce1.delta + ce2.delta))
    ∧ (counterKey e2 ce2 ≠ counterKey e1 ce1 →
      emittedTotal (aggregatorWrite (aggregatorWrite [] e1).1 e2).2 = some ce2.delta)
    ∧ (counterKey e1 ce1 = counterKey e2 ce2 ↔
        (e1.origin.getD "" = e2.origin.getD "" ∧ ce1.name = ce2.name
          ∧ sortTags e1.tags = sortTags e2.tags)) := by
  have hw1 := aggregatorWrite_deltaCase [] e1 ce1 h1t h1c h1T
  have hd1 : ce1.delta < U64 := by omega
  have hd2 : ce2.delta < U64 := by omega
  have hlook0 : lookupTotal [] (counterKey e1 ce1) = 0 := rfl
  refine ⟨?_, ?_, ?_⟩
  · intro hkey
    rw [hw1]
    have hw2 := aggregatorWrite_deltaCase
      (setTotal [] (counterKey e1 ce1) ((lookupTotal [] (counterKey e1 ce1) + ce1.delta) % U64))
      e2 ce2 h2t h2c h2T
    rw [hw2]
    simp only [emittedTotal, Option.some_bind, hkey, lookupTotal_setTotal, if_pos rfl, hlook0]
    have : ((0 + ce1.delta) % U64 + ce2.delta) % U64 = ce1.delta + ce2.delta := by
      rw [Nat.zero_add, Nat.mod_eq_of_lt hd1, Nat.mod_eq_of_lt hd]
    simp [this, Nat.mod_eq_of_lt hd]
  · intro hkey
    rw [hw1]
    have hw2 := aggregatorWrite_deltaCase
      (setTotal [] (counterKey e1 ce1) ((lookupTotal [] (counterKey e1 ce1) + ce1.delta) % U64))
      e2 ce2 h2t h2c h2T
    rw [hw2]
    have hneq : ¬ (counterKey e1 ce1 = counterKey e2 ce2) := fun hh => hkey hh.symm
    simp only [emittedTotal, Option.some_bind, lookupTotal_setTotal, if_neg hneq]
    have hl : lookupTotal [] (counterKey e2 ce2) = 0 := rfl
    rw [hl, Nat.zero_add, Nat.mod_eq_of_lt hd2]
  · simp only [counterKey, Prod.mk.injEq]

theorem aggregator_key_separation_witness :
    emittedTotal (aggregatorWrite
        (aggregatorWrite []
          (mkCounterEnv "fake-origin-4" "total" 4 none [("protocol", "grpc")])).1
        (mkCounterEnv "fake-origin-4" "total" 4 none [("proto", "other")])).2 = some 4 := by
  have h := aggregator_key_separation
    (mkCounterEnv "fake-origin-4" "total" 4 none [("protocol", "grpc")])
    (mkCounterEnv "fake-origin-4" "total" 4 none [("proto", "other")])
    { name := "total", delta := 4, total := none }
    { name := "total", delta := 4, total := none }
    rfl rfl rfl rfl rfl rfl (by decide)
  exact h.2.1 (by decide)

/-! ## Tagger (claim C8)

Modelled from the spec: the repository carries only the tests of the
egress/v1 `Tagger`, not its implementation.  Per the spec, the tagger
enriches each envelope with a fixed set of identity tags (deployment,
job, instance index, host address) — but only for tag keys not already
set. -/

/-- The Tagger's configured identity values. -/
structure TaggerCfg where
  deploymentName : String
  job : String
  idx : String
  ip : String
deriving DecidableEq, Repr

/-- Modelled from the spec: `Tagger.Write` fills each of the
deployment, job, index and IP fields from its configuration when the
envelope does not already carry a value for that field, then hands the
envelope to the downstream writer. -/
def taggerWrite (t : TaggerCfg) (e : V1Envelope) : V1Envelope :=
  { e with
    deployment := match e.deployment with | none => some t.deploymentName | some d => some d,
    job := match e.job with | none => some t.job | some j => some j,
    idx := match e.idx with | none => some t.idx | some i => some i,
    ip := match e.ip with | none => some t.ip | some i => some i }

/-- C8: for every envelope written through the Tagger, the deployment,
job, index and IP fields end up as the configured values exactly when
the envelope did not already carry them (an already-set field passes
through unchanged), and every other envelope field is unmodified. -/
theorem tagger_sets_only_unset (t : TaggerCfg) (e : V1Envelope) :
    (taggerWrite t e).deployment = some (e.deployment.getD t.deploymentName)
    ∧ (taggerWrite t e).job = some (e.job.getD t.job)
    ∧ (taggerWrite t e).idx = some (e.idx.getD t.idx)
    ∧ (taggerWrite t e).ip = some (e.ip.getD t.ip)
    ∧ (taggerWrite t e).origin = e.origin
    ∧ (taggerWrite t e).eventType = e.eventType
    ∧ (taggerWrite t e).counterEvent = e.counterEvent
    ∧ (taggerWrite t e).valueMetric = e.valueMetric
    ∧ (taggerWrite t e).tags = e.tags := by
  refine ⟨?_, ?_, ?_, ?_, rfl, rfl, rfl, rfl, rfl⟩
  · cases hd : e.deployment <;> simp [taggerWrite, hd]
  · cases hd : e.job <;> simp [taggerWrite, hd]
  · cases hd : e.idx <;> simp [taggerWrite, hd]
  · cases hd : e.ip <;> simp [taggerWrite, hd]

/-! ## Transponder (claims C4, C5)

Modelled from the spec: the repository carries only the tests of the
egress/v2 `Transponder`, not its implementation.  Per the spec, the
transponder accumulates envelopes pulled from the diode into a batch
buffer; it flushes when the buffer reaches the configured batch size,
or when the batch interval has elapsed since the first envelope of the
current buffer arrived; a successful flush advances the egress counter
by the batch size and a failed flush advances the dropped counter by
the batch size, and in both cases the buffer is cleared and processing
continues. -/

/-- A v2 envelope; its content is opaque to the transponder. -/
structure V2Envelope where
  sourceId : String
deriving DecidableEq, Repr

/-- Transponder configuration: batch size (envelope count) and batch
interval (duration, in abstract time units). -/
structure TxConfig where
  batchSize : Nat
  interval : Nat
deriving DecidableEq, Repr

/-- Transponder state: current buffer, arrival time of the first
envelope of the buffer, egress/dropped counters, number of writer
calls made so far, and the log of batches handed to the batch writer
together with the writer's outcome (true = success). -/
structure TxState where
  batch : List V2Envelope
  firstAt : Option Nat
  egress : Nat
  dropped : Nat
  writes : Nat
  flushLog : List (List V2Envelope × Bool)
deriving DecidableEq, Repr

def txInit : TxState :=
  { batch := [], firstAt := none, egress := 0, dropped := 0, writes := 0, flushLog := [] }

/-- Modelled from the spec: hand the current batch to the writer
(`ok n` is the outcome the writer returns for its n-th call).  Success
advances the egress counter by the batch size; failure advances the
dropped counter by the batch size.  Either way the buffer is cleared
and the batch is never handed to the writer again. -/
def txFlush (ok : Nat → Bool) (st : TxState) : TxState :=
  if ok st.writes then
    { batch := [], firstAt := none, egress := st.egress + st.batch.length,
      dropped := st.dropped, writes := st.writes + 1,
      flushLog := st.flushLog ++ [(st.batch, true)] }
  else
    { batch := [], firstAt := none, egress := st.egress,
      dropped := st.dropped + st.batch.length, writes := st.writes + 1,
      flushLog := st.flushLog ++ [(st.batch, false)] }

/-- One wake-up of the transponder loop: either the diode yielded an
envelope at time `t`, or it yielded none (timer check at time `t`). -/
inductive TxEvent
  | arrival (e : V2Envelope) (t : Nat)
  | wake (t : Nat)
deriving DecidableEq, Repr

/-- Modelled from the spec: one iteration of the transponder loop.  An
arriving envelope is appended to the buffer (recording its arrival time
if the buffer was empty); the buffer is flushed if it has reached the
batch size or the batch interval has elapsed since its first envelope
arrived.  A wake-up with no envelope flushes a non-empty buffer whose
interval has elapsed. -/
def txStep (cfg : TxConfig) (ok : Nat → Bool) (st : TxState) : TxEvent → TxState
  | .arrival e t =>
      let first := st.firstAt.getD t
      let st1 := { st with batch := st.batch ++ [e], firstAt := some first }
      if cfg.batchSize ≤ st1.batch.length ∨ first + cfg.interval ≤ t then txFlush ok st1
      else st1
  | .wake t =>
      match st.firstAt with
      | some f => if f + cfg.interval ≤ t then txFlush ok st else st
      | none => st

/-- Run the transponder over a sequence of wake-ups from the initial
state. -/
def txRun (cfg : TxConfig) (ok : Nat → Bool) (evs : List TxEvent) : TxState :=
  evs.foldl (txStep cfg ok) txInit

/-- Total number of envelopes in the logged batches whose outcome was
`b`. -/
def flushedCount (b : Bool) (log : List (List V2Envelope × Bool)) : Nat :=
  ((log.filter (fun p => p.2 == b)).map (fun p => p.1.length)).sum

/-- Transponder state invariant: every logged batch is within the batch
size, the live buffer is strictly below the batch size, and the
egress/dropped counters equal the envelope count of the
successful/failed logged batches. -/
def txGood (cfg : TxConfig) (st : TxState) : Prop :=
  (∀ p ∈ st.flushLog, p.1.length ≤ cfg.batchSize)
  ∧ st.batch.length < cfg.batchSize
  ∧ st.egress = flushedCount true st.flushLog
  ∧ st.dropped = flushedCount false st.flushLog
  ∧ st.writes = st.flushLog.length

theorem flushedCount_append (b r : Bool) (log : List (List V2Envelope × Bool))
    (batch : List V2Envelope) :
    flushedCount b (log ++ [(batch, r)])
      = flushedCount b log + (if r = b then batch.length else 0) := by
  by_cases h : r = b
  · subst h
    simp [flushedCount, List.filter_append]
  · simp [flushedCount, List.filter_append, h, Bool.beq_eq_decide_eq]

theorem txFlush_good (cfg : TxConfig) (ok : Nat → Bool) (st : TxState)
    (h1 : 1 ≤ cfg.batchSize)
    (hlog : ∀ p ∈ st.flushLog, p.1.length ≤ cfg.batchSize)
    (hlen : st.batch.length ≤ cfg.batchSize)
    (he : st.egress = flushedCount true st.flushLog)
    (hd : st.dropped = flushedCount false st.flushLog)
    (hw : st.writes = st.flushLog.length) :
    txGood cfg (txFlush ok st) := by
  unfold txFlush
  by_cases hok : ok st.writes = true
  · rw [if_pos hok]
    refine ⟨?_, h1, ?_, ?_, ?_⟩
    · intro p hp
      rcases List.mem_append.mp hp with h | h
      · exact hlog p h
      · rcases List.mem_singleton.mp h with rfl
        exact hlen
    · rw [flushedCount_append, if_pos rfl, he]
    · rw [flushedCount_append, if_neg (by simp), hd, Nat.add_zero]
    · simp [hw]
  · rw [if_neg hok]
    refine ⟨?_, h1, ?_, ?_, ?_⟩
    · intro p hp
      rcases List.mem_append.mp hp with h | h
      · exact hlog p h
      · rcases List.mem_singleton.mp h with rfl
        exact hlen
    · rw [flushedCount_append, if_neg (by simp), he, Nat.add_zero]
    · rw [flushedCount_append, if_pos rfl, hd]
    · simp [hw]

theorem txStep_good (cfg : TxConfig) (ok : Nat → Bool) (h1 : 1 ≤ cfg.batchSize)
    (st : TxState) (ev : TxEvent) (h : txGood cfg st) : txGood cfg (txStep cfg ok st ev) := by
  obtain ⟨hlog, hlen, he, hd, hw⟩ := h
  cases ev with
  | arrival e t =>
      simp only [txStep]
      have hl1 : (st.batch ++ [e]).length = st.batch.length + 1 := by simp
      by_cases hcond : cfg.batchSize ≤ (st.batch ++ [e]).length
          ∨ st.firstAt.getD t + cfg.interval ≤ t
      · rw [if_pos hcond]
        refine txFlush_good cfg ok _ h1 hlog ?_ he hd hw
        show (st.batch ++ [e]).length ≤ cfg.batchSize
        rw [hl1]
        exact Nat.succ_le_of_lt hlen
      · rw [if_neg hcond]
        refine ⟨hlog, ?_, he, hd, hw⟩
        show (st.batch ++ [e]).length < cfg.batchSize
        exact Nat.not_le.mp (fun hh => hcond (Or.inl hh))
  | wake t =>
      cases hf : st.firstAt with
      | none =>
          simp only [txStep, hf]
          exact ⟨hlog, hlen, he, hd, hw⟩
      | some f =>
          simp only [txStep, hf]
          by_cases hcond : f + cfg.interval ≤ t
          · rw [if_pos hcond]
            exact txFlush_good cfg ok st h1 hlog (Nat.le_of_lt hlen) he hd hw
          · rw [if_neg hcond]
            exact ⟨hlog, hlen, he, hd, hw⟩

theorem txRun_good (cfg : TxConfig) (ok : Nat → Bool) (h1 : 1 ≤ cfg.batchSize)
    (evs : List TxEvent) : txGood cfg (txRun cfg ok evs) := by
  have hstep : ∀ (l : List TxEvent) (st : TxState), txGood cfg st →
      txGood cfg (l.foldl (txStep cfg ok) st) := by
    intro l
    induction l with
    | nil => intro st h; exact h
    | cons ev rest ih => intro st h; exact ih _ (txStep_good cfg ok h1 st ev h)
  refine hstep evs txInit ⟨?_, h1, rfl, rfl, rfl⟩
  intro p hp
  exact absurd hp (List.not_mem_nil p)

theorem txFlush_batch (ok : Nat → Bool) (st : TxState) : (txFlush ok st).batch = [] := by
  unfold txFlush
  by_cases hok : ok st.writes = true <;> simp [hok]

theorem txFlush_flushLog (ok : Nat → Bool) (st : TxState) :
    (txFlush ok st).flushLog = st.flushLog ++ [(st.batch, ok st.writes)] := by
  unfold txFlush
  cases hok : ok st.writes <;> simp [hok]

/-- C4: every batch the transponder hands to its writer has size at
most the configured batch size; the buffer is flushed the moment it
reaches the batch size (with batch size 5 and 6 envelopes available the
first emitted batch has exactly 5 envelopes, one envelope stays
buffered), and any wake-up at or after the batch interval past the
first envelope's arrival flushes the non-empty buffer even if it is not
full. -/
theorem transponder_batching (cfg : TxConfig) (ok : Nat → Bool) (h1 : 1 ≤ cfg.batchSize) :
    (∀ evs : List TxEvent, ∀ p ∈ (txRun cfg ok evs).flushLog, p.1.length ≤ cfg.batchSize)
    ∧ (∀ (st : TxState) (e : V2Envelope) (t : Nat),
        cfg.batchSize ≤ st.batch.length + 1 →
        txStep cfg ok st (TxEvent.arrival e t)
          = txFlush ok { st with batch := st.batch ++ [e], firstAt := some (st.firstAt.getD t) })
    ∧ (∀ (st : TxState) (f t : Nat) (e : V2Envelope), st.firstAt = some f →
        f + cfg.interval ≤ t →
        (txStep cfg ok st (TxEvent.wake t)).batch = []
        ∧ (txStep cfg ok st (TxEvent.arrival e t)).batch = [])
    ∧ ((txRun ⟨5, 60⟩ (fun _ => true)
          (List.replicate 6 (TxEvent.arrival ⟨"uuid"⟩ 0))).flushLog.map
            (fun p => p.1.length) = [5]
        ∧ (txRun ⟨5, 60⟩ (fun _ => true)
            (List.replicate 6 (TxEvent.arrival ⟨"uuid"⟩ 0))).batch.length = 1) := by
  refine ⟨?_, ?_, ?_, ?_⟩
  · intro evs p hp
    exact (txRun_good cfg ok h1 evs).1 p hp
  · intro st e t hsz
    simp only [txStep]
    rw [if_pos (Or.inl (by simpa using hsz))]
  · intro st f t e hf ht
    constructor
    · simp only [txStep, hf]
      rw [if_pos ht]
      exact txFlush_batch ok st
    · simp only [txStep, hf, Option.getD_some]
      rw [if_pos (Or.inr ht)]
      exact txFlush_batch ok _
  · exact ⟨by decide, by decide⟩

theorem transponder_batching_witness :
    (txRun ⟨5, 60⟩ (fun _ => true)
        (List.replicate 6 (TxEvent.arrival ⟨"uuid"⟩ 0))).flushLog.map
          (fun p => p.1.length) = [5] :=
  ((transponder_batching ⟨5, 60⟩ (fun _ => true) (by decide)).2.2.2).1

/-- C5: when the batch writer fails a flushed batch the transponder
adds the batch size to the dropped counter, clears its buffer and never
hands that batch to the writer again (each step emits at most one
batch, and the buffer is empty after any emission), and it continues
with subsequent envelopes; on success it adds the batch size to the
egress counter.  Over any run, dropped equals the total size of the
failed batches and egress the total size of the successful ones. -/
theorem transponder_error_drops (cfg : TxConfig) (ok : Nat → Bool) (h1 : 1 ≤ cfg.batchSize) :
    (∀ evs : List TxEvent,
        (txRun cfg ok evs).dropped = flushedCount false (txRun cfg ok evs).flushLog
        ∧ (txRun cfg ok evs).egress = flushedCount true (txRun cfg ok evs).flushLog)
    ∧ (∀ (st : TxState) (ev : TxEvent), ∃ tail : List (List V2Envelope × Bool),
        (txStep cfg ok st ev).flushLog = st.flushLog ++ tail ∧ tail.length ≤ 1
        ∧ (tail ≠ [] → (txStep cfg ok st ev).batch = []))
    ∧ ((txRun ⟨2, 60⟩ (fun n => decide (0 < n))
          (List.replicate 4 (TxEvent.arrival ⟨"uuid"⟩ 0))).flushLog
            = [([⟨"uuid"⟩, ⟨"uuid"⟩], false), ([⟨"uuid"⟩, ⟨"uuid"⟩], true)]
        ∧ (txRun ⟨2, 60⟩ (fun n => decide (0 < n))
            (List.replicate 4 (TxEvent.arrival ⟨"uuid"⟩ 0))).dropped = 2
        ∧ (txRun ⟨2, 60⟩ (fun n => decide (0 < n))
            (List.replicate 4 (TxEvent.arrival ⟨"uuid"⟩ 0))).egress = 2) := by
  refine ⟨?_, ?_, ?_⟩
  · intro evs
    obtain ⟨_, _, he, hd, _⟩ := txRun_good cfg ok h1 evs
    exact ⟨hd, he⟩
  · intro st ev
    cases ev with
    | arrival e t =>
        simp only [txStep]
        by_cases hcond : cfg.batchSize ≤ (st.batch ++ [e]).length
            ∨ st.firstAt.getD t + cfg.interval ≤ t
        · rw [if_pos hcond]
          exact ⟨[(st.batch ++ [e], ok st.writes)], txFlush_flushLog ok _, by simp,
            fun _ => txFlush_batch ok _⟩
        · rw [if_neg hcond]
          exact ⟨[], by simp, by simp, fun h => absurd rfl h⟩
    | wake t =>
        cases hf : st.firstAt with
        | none =>
            simp only [txStep, hf]
            exact ⟨[], by simp, by simp, fun h => absurd rfl h⟩
        | some f =>
            simp only [txStep, hf]
            by_cases hcond : f + cfg.interval ≤ t
            · rw [if_pos hcond]
              exact ⟨[(st.batch, ok st.writes)], txFlush_flushLog ok st, by simp,
                fun _ => txFlush_batch ok st⟩
            · rw [if_neg hcond]
              exact ⟨[], by simp, by simp, fun h => absurd rfl h⟩
  · exact ⟨by decide, by decide, by decide⟩

theorem transponder_error_drops_witness :
    (txRun ⟨2, 60⟩ (fun n => decide (0 < n))
        (List.replicate 4 (TxEvent.arrival ⟨"uuid"⟩ 0))).dropped = 2
    ∧ (txRun ⟨2, 60⟩ (fun n => decide (0 < n))
        (List.replicate 4 (TxEvent.arrival ⟨"uuid"⟩ 0))).egress = 2 := by
  have h := transponder_error_drops ⟨2, 60⟩ (fun n => decide (0 < n)) (by decide)
  exact ⟨h.2.2.2.1, h.2.2.2.2⟩

/-! ## Diode (claim C6)

Modelled from the spec and the in-repo diode documentation
(docs/code-documentation/diodes.md): the diode implementations are not
in the repository source tree.  A bounded drop-oldest ring: `set` never
blocks and, when the writer would overtake the reader, bypasses the
oldest cells and reports the bypass count to the configured drop
alerter; `tryNext` pops the next envelope in write order or reports
none.  The model additionally records the history of delivered,
dropped and set envelopes so conservation can be stated. -/

/-- Diode state: live buffer (oldest first) plus the histories needed
to state conservation — envelopes delivered to the consumer, envelopes
bypassed (dropped), the counts handed to the alerter, and all envelopes
ever set. -/
structure DiodeState (α : Type) where
  buf : List α
  delivered : List α
  dropped : List α
  alerts : List Nat
  setList : List α
deriving DecidableEq, Repr

def diodeInit (α : Type) : DiodeState α :=
  { buf := [], delivered := [], dropped := [], alerts := [], setList := [] }

/-- Modelled from the spec: `Set` appends the envelope; if the writer
overtook the reader (buffer beyond capacity), the reader cursor is
advanced past the oldest overwritten cells and the bypass count is
delivered to the drop alerter. -/
def diodeSet (cap : Nat) (st : DiodeState α) (e : α) : DiodeState α :=
  if cap < (st.buf ++ [e]).length then
    { buf := (st.buf ++ [e]).drop ((st.buf ++ [e]).length - cap),
      delivered := st.delivered,
      dropped := st.dropped ++ (st.buf ++ [e]).take ((st.buf ++ [e]).length - cap),
      alerts := st.alerts ++ [(st.buf ++ [e]).length - cap],
      setList := st.setList ++ [e] }
  else
    { st with buf := st.buf ++ [e], setList := st.setList ++ [e] }

/-- Modelled from the spec: `TryNext` returns the next envelope in
write order, or none when the buffer is empty. -/
def diodeTryNext (st : DiodeState α) : DiodeState α × Option α :=
  match st.buf with
  | [] => (st, none)
  | e :: rest => ({ st with buf := rest, delivered := st.delivered ++ [e] }, some e)

/-- An operation on the diode: a producer `set` or a consumer
`tryNext`. -/
inductive DiodeOp (α : Type)
  | set (e : α)
  | tryNext
deriving DecidableEq, Repr

/-- Run a sequence of diode operations. -/
def diodeRun (cap : Nat) (st : DiodeState α) : List (DiodeOp α) → DiodeState α
  | [] => st
  | DiodeOp.set e :: rest => diodeRun cap (diodeSet cap st e) rest
  | DiodeOp.tryNext :: rest => diodeRun cap (diodeTryNext st).1 rest

/-- Diode conservation invariant: delivered + alerted drops + buffered
account for every set envelope, the dropped envelopes match the counts
reported to the alerter, and delivered/dropped/buffered envelopes are
exactly a permutation of the set envelopes. -/
def diodeGood (st : DiodeState α) : Prop :=
  st.delivered.length + st.alerts.sum + st.buf.length = st.setList.length
  ∧ st.dropped.length = st.alerts.sum
  ∧ List.Perm (st.delivered ++ (st.dropped ++ st.buf)) st.setList

theorem diodeSet_good {α : Type} (cap : Nat) (st : DiodeState α) (e : α)
    (h : diodeGood st) : diodeGood (diodeSet cap st e) := by
  obtain ⟨hlen, hdrop, hperm⟩ := h
  unfold diodeSet
  by_cases hc : cap < (st.buf ++ [e]).length
  · rw [if_pos hc]
    have hkle : (st.buf ++ [e]).length - cap ≤ (st.buf ++ [e]).length := Nat.sub_le _ _
    refine ⟨?_, ?_, ?_⟩
    · simp only [List.length_drop, List.sum_append, List.sum_cons, List.sum_nil,
        List.length_append, List.length_singleton]
      simp only [List.length_append, List.length_singleton] at hc hkle
      omega
    · simp only [List.length_append, List.length_take, List.sum_append, List.sum_cons,
        List.sum_nil]
      simp only [List.length_append, List.length_singleton] at hkle
      omega
    · have heq : st.delivered
          ++ ((st.dropped ++ (st.buf ++ [e]).take ((st.buf ++ [e]).length - cap))
            ++ (st.buf ++ [e]).drop ((st.buf ++ [e]).length - cap))
          = (st.delivered ++ (st.dropped ++ st.buf)) ++ [e] := by
        rw [List.append_assoc st.dropped, List.take_append_drop]
        simp
      rw [heq]
      exact hperm.append_right [e]
  · rw [if_neg hc]
    refine ⟨?_, hdrop, ?_⟩
    · simp only [List.length_append, List.length_singleton]
      omega
    · have heq : st.delivered ++ (st.dropped ++ (st.buf ++ [e]))
          = (st.delivered ++ (st.dropped ++ st.buf)) ++ [e] := by simp
      rw [heq]
      exact hperm.append_right [e]

theorem diodeTryNext_good {α : Type} (st : DiodeState α) (h : diodeGood st) :
    diodeGood (diodeTryNext st).1 := by
  obtain ⟨hlen, hdrop, hperm⟩ := h
  cases hbuf : st.buf with
  | nil =>
      simp only [diodeTryNext, hbuf]
      exact ⟨hlen, hdrop, hperm⟩
  | cons a rest =>
      simp only [diodeTryNext, hbuf]
      rw [hbuf] at hlen hperm
      refine ⟨?_, hdrop, ?_⟩
      · show (st.delivered ++ [a]).length + st.alerts.sum + rest.length = st.setList.length
        have hda : (st.delivered ++ [a]).length = st.delivered.length + 1 := by simp
        rw [hda]
        rw [List.length_cons] at hlen
        omega
      · have heq : (st.delivered ++ [a]) ++ (st.dropped ++ rest)
            = st.delivered ++ (a :: (st.dropped ++ rest)) := by simp
        rw [heq]
        exact (List.perm_middle.symm.append_left st.delivered).trans hperm

theorem diodeRun_good {α : Type} (cap : Nat) :
    ∀ (ops : List (DiodeOp α)) (st : DiodeState α),
      diodeGood st → diodeGood (diodeRun cap st ops) := by
  intro ops
  induction ops with
  | nil => intro st h; exact h
  | cons op rest ih =>
      intro st h
      cases op with
      | set e => exact ih _ (diodeSet_good cap st e h)
      | tryNext => exact ih _ (diodeTryNext_good st h)

/-- C6 as stated is falsified by a single `set` with no `tryNext`:
after setting one envelope into an empty capacity-4 diode, deliveries
(0) plus drops reported to the alerter (0) do not equal the envelopes
set by producers (1) — the envelope is still sitting in the buffer. -/
theorem diode_conservation_counterexample :
    ¬ ((diodeRun 4 (diodeInit Nat) [DiodeOp.set 0]).delivered.length
        + (diodeRun 4 (diodeInit Nat) [DiodeOp.set 0]).alerts.sum
        = (diodeRun 4 (diodeInit Nat) [DiodeOp.set 0]).setList.length) := by
  decide

/-- C6 (amended): for every sequence of set and try-next operations,
envelopes delivered plus drops reported to the alerter plus envelopes
still in the buffer equal the envelopes set by producers (so delivered
plus dropped equals set once the buffer has been drained); the
delivered, dropped and buffered envelopes are a permutation of the set
envelopes, so no envelope is both delivered and counted as dropped;
each drop event reports its bypass count to the configured alerter; and
on overflow the bypassed cell is the oldest one in the buffer. -/
theorem diode_conservation (α : Type) (cap : Nat) :
    (∀ ops : List (DiodeOp α),
        (diodeRun cap (diodeInit α) ops).delivered.length
            + (diodeRun cap (diodeInit α) ops).alerts.sum
            + (diodeRun cap (diodeInit α) ops).buf.length
          = (diodeRun cap (diodeInit α) ops).setList.length
        ∧ (diodeRun cap (diodeInit α) ops).dropped.length
            = (diodeRun cap (diodeInit α) ops).alerts.sum
        ∧ List.Perm
            ((diodeRun cap (diodeInit α) ops).delivered
              ++ ((diodeRun cap (diodeInit α) ops).dropped
                ++ (diodeRun cap (diodeInit α) ops).buf))
            (diodeRun cap (diodeInit α) ops).setList
        ∧ ((diodeRun cap (diodeInit α) ops).buf = [] →
            (diodeRun cap (diodeInit α) ops).delivered.length
              + (diodeRun cap (diodeInit α) ops).alerts.sum
            = (diodeRun cap (diodeInit α) ops).setList.length))
    ∧ (∀ (st : DiodeState α) (e : α), st.buf.length = cap → 1 ≤ cap →
        (diodeSet cap st e).dropped = st.dropped ++ st.buf.take 1
        ∧ (diodeSet cap st e).alerts = st.alerts ++ [1]
        ∧ (diodeSet cap st e).buf = st.buf.drop 1 ++ [e]) := by
  constructor
  · intro ops
    obtain ⟨h1, h2, h3⟩ := diodeRun_good cap ops (diodeInit α) ⟨rfl, rfl, List.Perm.refl []⟩
    refine ⟨h1, h2, h3, ?_⟩
    intro hempty
    rw [hempty] at h1
    simpa using h1
  · intro st e hcap h1
    have hover : cap < (st.buf ++ [e]).length := by
      simp only [List.length_append, List.length_singleton, hcap]
      omega
    have hk : (st.buf ++ [e]).length - cap = 1 := by
      simp only [List.length_append, List.length_singleton, hcap]
      omega
    have hb1 : 1 ≤ st.buf.length := by rw [hcap]; exact h1
    unfold diodeSet
    rw [if_pos hover, hk]
    refine ⟨?_, rfl, ?_⟩
    · rw [List.take_append_of_le_length hb1]
    · rw [List.drop_append_of_le_length hb1]

theorem diode_conservation_witness :
    (diodeRun 3 (diodeInit Nat)
        [DiodeOp.set 0, DiodeOp.set 1, DiodeOp.set 2, DiodeOp.set 3,
         DiodeOp.tryNext, DiodeOp.tryNext, DiodeOp.tryNext]).delivered.length
      + (diodeRun 3 (diodeInit Nat)
          [DiodeOp.set 0, DiodeOp.set 1, DiodeOp.set 2, DiodeOp.set 3,
           DiodeOp.tryNext, DiodeOp.tryNext, DiodeOp.tryNext]).alerts.sum
      = (diodeRun 3 (diodeInit Nat)
          [DiodeOp.set 0, DiodeOp.set 1, DiodeOp.set 2, DiodeOp.set 3,
           DiodeOp.tryNext, DiodeOp.tryNext, DiodeOp.tryNext]).setList.length := by
  have h := (diode_conservation Nat 3).1
    [DiodeOp.set 0, DiodeOp.set 1, DiodeOp.set 2, DiodeOp.set 3,
     DiodeOp.tryNext, DiodeOp.tryNext, DiodeOp.tryNext]
  exact h.2.2.2 (by decide)

/-! ## Filtered binding fetcher (claim C7)

Modelled from the spec: the repository carries only the tests of
`FilteredBindingFetcher` (ingress/bindings), not its implementation.
Per the spec, after each fetch every drain URL is validated: the URL
must parse with a non-empty host, the scheme must be syslog,
syslog-tls or https, and the resolved address must not be
blacklisted; rejected drains are dropped (logged and counted) without
failing the fetch, and the remaining valid set is the result. -/

/-- A drain destination (its URL). -/
structure Drain where
  url : String
deriving DecidableEq, Repr

/-- A binding: tenant id, hostname label, and a drain. -/
structure Binding where
  appId : String
  hostname : String
  drain : Drain
deriving DecidableEq, Repr

/-- The drain schemes the spec admits. -/
def validSchemes : List String := ["syslog", "syslog-tls", "https"]

/-- Split a character list at the first occurrence of "://"; the first
component accumulates the scheme (reversed while scanning). -/
def splitSchemeAux : List Char → List Char → Option (List Char × List Char)
  | acc, ':' :: '/' :: '/' :: rest => some (acc.reverse, rest)
  | acc, c :: rest => splitSchemeAux (c :: acc) rest
  | _, [] => none

/-- The host part of what follows "://": everything up to the first
"/". -/
def takeHost : List Char → List Char
  | [] => []
  | '/' :: _ => []
  | c :: rest => c :: takeHost rest

/-- Modelled from the spec: minimal drain-URL parsing — the scheme is
what precedes the first "://" and the host is what follows it up to
the first "/"; a URL without a "://" separator or with an empty scheme
does not parse. -/
def parseDrainUrl (s : String) : Option (String × String) :=
  match splitSchemeAux [] s.data with
  | none => none
  | some (scheme, rest) =>
      if scheme = [] then none
      else some (String.mk scheme, String.mk (takeHost rest))

/-- The drain-destination checker handed to the fetcher: address
resolution (none models a resolution failure) and the IP blacklist
(true = blacklisted). -/
structure IPChecker where
  resolveAddr : String → Option Nat
  checkBlacklist : Nat → Bool

/-- Modelled from the spec: a binding passes the filter when its drain
URL parses with a non-empty host, the scheme is one of
syslog/syslog-tls/https, the host resolves, and the resolved address
is not blacklisted. -/
def keepBinding (chk : IPChecker) (b : Binding) : Bool :=
  match parseDrainUrl b.drain.url with
  | none => false
  | some (scheme, host) =>
      if host = "" then false
      else if scheme ∈ validSchemes then
        match chk.resolveAddr host with
        | none => false
        | some ip => ! chk.checkBlacklist ip
      else false

/-- Modelled from the spec: `FetchBindings` passes a reader error
through and otherwise returns the fetched bindings with every invalid
drain removed; rejected drains never produce an error. -/
def fetchBindings (chk : IPChecker) (reader : Except String (List Binding)) :
    Except String (List Binding) :=
  match reader with
  | Except.error e => Except.error e
  | Except.ok bs => Except.ok (bs.filter (keepBinding chk))

/-- The claim's validity condition for a binding, read off the spec's
words: the URL parses, the host is non-empty, the scheme is admitted,
and the resolved address is not blacklisted. -/
def specValidDrain (chk : IPChecker) (b : Binding) : Prop :=
  ∃ scheme host, parseDrainUrl b.drain.url = some (scheme, host)
    ∧ host ≠ "" ∧ scheme ∈ validSchemes
    ∧ ∃ ip, chk.resolveAddr host = some ip ∧ chk.checkBlacklist ip = false

/-- A concrete checker mirroring the test environment: example.com
resolves and nothing is blacklisted. -/
def chkLocal : IPChecker :=
  { resolveAddr := fun host => if host = "example.com" then some 2130706433 else none,
    checkBlacklist := fun _ => false }

/-- A concrete checker on which every address resolves but is
blacklisted. -/
def chkBlock : IPChecker :=
  { resolveAddr := fun _ => some 10, checkBlacklist := fun _ => true }

/-- C7: FetchBindings drops every binding whose drain URL does not
parse, has an empty host, has a scheme other than syslog, syslog-tls
or https, or resolves to a blacklisted address; rejected drains never
make the fetch return an error, and the result is exactly the
remaining valid bindings in their original order (checked on the
repository's test URLs "://", "foo://example.com", "syslog:///",
"syslog://example.com" and a blacklisted drain). -/
theorem fetch_bindings_filters (chk : IPChecker) (bs : List Binding) :
    (fetchBindings chk (Except.ok bs) = Except.ok (bs.filter (keepBinding chk))
      ∧ (∀ b : Binding, keepBinding chk b = true ↔ specValidDrain chk b)
      ∧ (∀ b : Binding, b ∈ bs.filter (keepBinding chk) ↔ (b ∈ bs ∧ specValidDrain chk b)))
    ∧ (fetchBindings chkLocal (Except.ok
          [{ appId := "app-id", hostname := "we.dont.care", drain := { url := "://" } },
           { appId := "app-id", hostname := "we.dont.care", drain := { url := "foo://example.com" } },
           { appId := "app-id", hostname := "we.dont.care", drain := { url := "syslog:///" } },
           { appId := "app-id", hostname := "we.dont.care", drain := { url := "syslog://example.com" } }])
        = Except.ok
          [{ appId := "app-id", hostname := "we.dont.care", drain := { url := "syslog://example.com" } }]
      ∧ fetchBindings chkBlock (Except.ok
          [{ appId := "app-id", hostname := "we.dont.care", drain := { url := "syslog://example.com" } }])
        = Except.ok []) := by
  have hkeep : ∀ b : Binding, keepBinding chk b = true ↔ specValidDrain chk b := by
    intro b
    unfold keepBinding specValidDrain
    cases hp : parseDrainUrl b.drain.url with
    | none => simp [hp]
    | some p =>
        obtain ⟨scheme, host⟩ := p
        by_cases hh : host = ""
        · subst hh
          simp [hp]
        · by_cases hs : scheme ∈ validSchemes
          · simp only [hp, if_neg hh, if_pos hs]
            cases hr : chk.resolveAddr host with
            | none => simp [hr, hh, hs]
            | some ip =>
                simp only [hr, hh, hs, Bool.not_eq_true', Option.some.injEq, Prod.mk.injEq]
                constructor
                · intro hbl
                  exact ⟨scheme, host, ⟨⟨rfl, rfl⟩, hh, hs, ⟨ip, hr, hbl⟩⟩⟩
                · rintro ⟨s', h', ⟨rfl, rfl⟩, -, -, ip', hip', hbl⟩
                  rw [hr] at hip'
                  injection hip' with hih
                  subst hih
                  exact hbl
          · simp [hp, hh, hs]
  refine ⟨⟨rfl, hkeep, ?_⟩, by rfl, by rfl⟩
  intro b
  rw [List.mem_filter]
  exact and_congr_right (fun _ => hkeep b)

/-! ## Event unmarshaller and marshaller (claim C9)

Modelled from the spec: the repository carries only the tests of the
ingress/v1 `EventUnmarshaller` and egress/v1 `EventMarshaller`, not
their implementations, and the protobuf wire codec itself is outside
the modelled core; it is abstracted as decode/encode functions.  Per
the spec, parse/validation failures drop the offending item and
increment a labelled counter; they never propagate. -/

/-- Unmarshaller observable state: envelopes handed to the downstream
envelope writer, and the count of inputs dropped as unparsable. -/
structure UnmarshallerState where
  written : List V1Envelope
  unmarshalErrors : Nat
deriving DecidableEq, Repr

/-- Modelled from the spec: `EventUnmarshaller.Write` decodes a byte
slice; on failure the input is dropped and counted and the downstream
envelope writer is not invoked, on success the envelope is handed
downstream. -/
def unmarshallerWrite (decode : List Nat → Option V1Envelope)
    (st : UnmarshallerState) (bytes : List Nat) : UnmarshallerState :=
  match decode bytes with
  | none => { st with unmarshalErrors := st.unmarshalErrors + 1 }
  | some e => { st with written := st.written ++ [e] }

/-- Marshaller observable state: byte messages handed to the byte
writer, the egress counter, and the count of envelopes dropped as
unmarshallable. -/
structure MarshallerState where
  bytesWritten : List (List Nat)
  egress : Nat
  dropped : Nat
deriving DecidableEq, Repr

/-- Modelled from the spec: `EventMarshaller.Write` encodes an
envelope; with no writer set nothing happens, on encode failure the
envelope is dropped and counted and no bytes reach the byte writer, on
success the bytes are written and egress is counted. -/
def marshallerWrite (encode : V1Envelope → Option (List Nat)) (writerSet : Bool)
    (st : MarshallerState) (e : V1Envelope) : MarshallerState :=
  if writerSet then
    match encode e with
    | none => { st with dropped := st.dropped + 1 }
    | some bs => { st with bytesWritten := st.bytesWritten ++ [bs], egress := st.egress + 1 }
  else st

/-- C9: parse and validation failures never reach downstream: a byte
slice that does not decode to an envelope is dropped and counted and
the downstream envelope writer is never invoked for it, and an
envelope that fails to encode is dropped and counted and no bytes are
handed to the byte writer. -/
theorem codec_failures_do_not_propagate
    (decode : List Nat → Option V1Envelope) (encode : V1Envelope → Option (List Nat)) :
    (∀ (st : UnmarshallerState) (bytes : List Nat), decode bytes = none →
        (unmarshallerWrite decode st bytes).written = st.written
        ∧ (unmarshallerWrite decode st bytes).unmarshalErrors = st.unmarshalErrors + 1)
    ∧ (∀ (st : MarshallerState) (e : V1Envelope), encode e = none →
        (marshallerWrite encode true st e).bytesWritten = st.bytesWritten
        ∧ (marshallerWrite encode true st e).egress = st.egress
        ∧ (marshallerWrite encode true st e).dropped = st.dropped + 1) := by
  constructor
  · intro st bytes hd
    simp [unmarshallerWrite, hd]
  · intro st e he
    simp [marshallerWrite, he]

theorem codec_failures_do_not_propagate_witness :
    (unmarshallerWrite (fun _ => none) { written := [], unmarshalErrors := 0 }
        [0, 0, 0, 0]).written = []
    ∧ (unmarshallerWrite (fun _ => none) { written := [], unmarshalErrors := 0 }
        [0, 0, 0, 0]).unmarshalErrors = 1 := by
  have h := (codec_failures_do_not_propagate (fun _ => none) (fun _ => none)).1
    { written := [], unmarshalErrors := 0 } [0, 0, 0, 0] rfl
  exact h

/-! ## v2 EnvelopeWriter (claim C10)

Translated from the source (src/pkg/egress/v2/envelope_writer.go):
`EnvelopeWriter.Write` runs the envelope processor on the envelope,
returns the processor's error if there is one, and otherwise returns
the result of the underlying single-envelope writer on the processed
envelope.  The Go processor mutates the envelope in place and returns
an error; functionally it is an `Except` returning the processed
envelope.  The second component records the envelopes handed to the
underlying writer, so that "the writer was never invoked" is
observable. -/

/-- `EnvelopeWriter.Write` from the source, instrumented with the list
of envelopes passed to the underlying writer. -/
def envelopeWriterWrite (process : V2Envelope → Except String V2Envelope)
    (write : V2Envelope → Option String) (env : V2Envelope) :
    Option String × List V2Envelope :=
  match process env with
  | Except.error err => (some err, [])
  | Except.ok env2 => (write env2, [env2])

/-- C10: `Write` first applies the processor; if the processor fails,
the error is returned and the underlying writer is never invoked for
the envelope; otherwise `Write` returns exactly the underlying
writer's result for the processed envelope. -/
theorem envelope_writer_processes_first
    (process : V2Envelope → Except String V2Envelope)
    (write : V2Envelope → Option String) (env : V2Envelope) :
    (∀ err, process env = Except.error err →
        envelopeWriterWrite process write env = (some err, []))
    ∧ (∀ env2, process env = Except.ok env2 →
        envelopeWriterWrite process write env = (write env2, [env2])) := by
  constructor
  · intro err herr
    simp [envelopeWriterWrite, herr]
  · intro env2 hok
    simp [envelopeWriterWrite, hok]

theorem envelope_writer_processes_first_witness :
    envelopeWriterWrite (fun _ => Except.error "expected error") (fun _ => none) { sourceId := "uuid" }
      = (some "expected error", []) :=
  (envelope_writer_processes_first (fun _ => Except.error "expected error")
    (fun _ => none) { sourceId := "uuid" }).1 "expected error" rfl
